import Mathlib

/-
Verification development for the document-parsing API's extraction engine
(src/main.py) and the batch script's duplicated extractors
(src/BatchProcessor.py).

Modelling conventions (shallow embedding):
* Python `str` is modelled as `List Char`; character classes (\d, \w, \s,
  isalpha, lower, ...) are modelled on their ASCII fragment, which is the
  fragment the heuristics are written for.
* Python regexes are hand-compiled to executable matchers that reproduce the
  engine's leftmost-position scan and its greedy backtracking order, pattern
  by pattern.
* Python `float` is modelled by `PyFloat`: a finite value carried as an
  exact rational, or one of the two infinities, to which `float(...)`
  saturates (without raising) at the IEEE 754 binary64 overflow threshold
  `2^1024 - 2^970`; `float(...)` raising `ValueError` is modelled as
  `Option.none`; the `"%.2f"` format is scaling by 100 with
  round-half-to-even on finite values and `"inf"`/`"-inf"` on the
  infinities.  Finite doubles are kept exact rather than rounded to 53
  bits: the claims below depend only on the sign and the two-decimal shape
  of finite outputs, which that rounding preserves.
* `datetime.strptime` is modelled from CPython's `_strptime` directive
  regexes (%m = 1[0-2]|0[1-9]|[1-9], %d = 3[01]|[12]\d|0[1-9]|[1-9],
  %y = \d\d, %Y = \d\d\d\d, a literal blank = \s+) plus the constructor's
  calendar validation; `strftime("%Y-%m-%d")` is modelled after glibc, which
  does not zero-pad %Y for years below 1000.
-/

namespace DocParse

/-! ### Character classes (ASCII fragment of Python's semantics) -/

/-- Python whitespace for `str.strip`, `str.split` and the regex class \s
(ASCII fragment). -/
def isPyWs (c : Char) : Bool :=
  c == ' ' || c == '\t' || c == '\n' || c == '\r' || c == '\x0b' || c == '\x0c'

/-- The regex word class \w (ASCII fragment): alphanumeric or underscore. -/
def isWordCh (c : Char) : Bool :=
  c.isAlphanum || c == '_'

/-- Line-break characters recognised by `str.splitlines` (the input reaching
`splitlines` in this code base is `\r`-free, `clean_ocr_text` runs first). -/
def isLineBreak (c : Char) : Bool :=
  c == '\n' || c == '\r' || c == '\x0b' || c == '\x0c' || c == '\x1c' ||
  c == '\x1d' || c == '\x1e' || c == '\x85' || c == '\u2028' || c == '\u2029'

def toLowerList (cs : List Char) : List Char := cs.map Char.toLower

/-- `text.replace('\r', '\n')`; on the empty string the source returns `""`,
which coincides with mapping over the empty list. Models `clean_ocr_text`. -/
def cleanOcrChars (cs : List Char) : List Char :=
  cs.map (fun c => if c == '\r' then '\n' else c)

/-- `clean_text_for_dates`: the OCR-confusion substitution I→1, l→1, O→0. -/
def cleanDatesChars (cs : List Char) : List Char :=
  cs.map (fun c => if c == 'I' then '1' else if c == 'l' then '1' else
    if c == 'O' then '0' else c)

/-- `str.strip()`: drop Python whitespace from both ends. -/
def pyStrip (cs : List Char) : List Char :=
  ((cs.dropWhile isPyWs).reverse.dropWhile isPyWs).reverse

/-- Substring containment (`pat in s` for Python strings). -/
def hasSubstr (pat : List Char) : List Char → Bool
  | [] => pat.isEmpty
  | c :: rest => pat.isPrefixOf (c :: rest) || hasSubstr pat rest

/-- Case-insensitive literal match: drop `pat` (already lowercase) from the
front of `cs`, comparing caselessly; returns the remainder on success. -/
def caselessDrop : List Char → List Char → Option (List Char)
  | [], cs => some cs
  | _ :: _, [] => none
  | p :: ps, c :: cs => if c.toLower == p then caselessDrop ps cs else none

/-! ### The MONEY_PATTERN matcher

`MONEY_PATTERN = [\$]?\s*\d{1,3}(?:[.,]\d{3})*(?:[.,]\d{2})`.

Matchers are written in continuation-passing style returning
`Option (consumed, remainder)`; alternatives are ordered exactly as the
backtracking engine explores them (greedy pieces first). -/

/-- Result of a partial match: consumed characters and remaining input. -/
abbrev MRes := Option (List Char × List Char)

def consHead (c : Char) : MRes → MRes
  | some (t, r) => some (c :: t, r)
  | none => none

/-- `[\$]?` (greedy: try consuming the dollar sign first). -/
def mDollar (cs : List Char) (k : List Char → MRes) : MRes :=
  match cs with
  | '$' :: rest =>
    match consHead '$' (k rest) with
    | some x => some x
    | none => k cs
  | _ => k cs

/-- `\s*` (greedy with backtracking). -/
def mWsStar (cs : List Char) (k : List Char → MRes) : MRes :=
  match cs with
  | c :: rest =>
    if isPyWs c then
      match consHead c (mWsStar rest k) with
      | some x => some x
      | none => k cs
    else k cs
  | [] => k cs

/-- Exactly `n` digits. -/
def mDigitsN : Nat → List Char → (List Char → MRes) → MRes
  | 0, cs, k => k cs
  | n + 1, cs, k =>
    match cs with
    | c :: rest => if c.isDigit then consHead c (mDigitsN n rest k) else none
    | [] => none

/-- `\d{1,3}` (greedy: three digits, then two, then one). -/
def mDigits13 (cs : List Char) (k : List Char → MRes) : MRes :=
  mDigitsN 3 cs k <|> mDigitsN 2 cs k <|> mDigitsN 1 cs k

def isMoneySep (c : Char) : Bool := c == '.' || c == ','

/-- `(?:[.,]\d{3})*` (greedy loop with backtracking on the iteration count). -/
def mStarSep3 (cs : List Char) (k : List Char → MRes) : MRes :=
  match cs with
  | s :: a :: b :: c :: rest =>
    if isMoneySep s && a.isDigit && b.isDigit && c.isDigit then
      match mStarSep3 rest k with
      | some (t, r) => some (s :: a :: b :: c :: t, r)
      | none => k cs
    else k cs
  | _ => k cs

/-- The mandatory tail `(?:[.,]\d{2})`. -/
def mSep2 (cs : List Char) (k : List Char → MRes) : MRes :=
  match cs with
  | s :: a :: b :: rest =>
    if isMoneySep s && a.isDigit && b.isDigit then
      consHead s (consHead a (consHead b (k rest)))
    else none
  | _ => none

/-- A MONEY_PATTERN match anchored at the head of `cs`: returns the matched
token and the remainder. -/
def moneyAt (cs : List Char) : MRes :=
  mDollar cs (fun r1 =>
    mWsStar r1 (fun r2 =>
      mDigits13 r2 (fun r3 =>
        mStarSep3 r3 (fun r4 =>
          mSep2 r4 (fun r5 => some ([], r5))))))

/-- `re.findall(MONEY_PATTERN, text)`: leftmost, non-overlapping matches,
resuming after each match.  Fuel-driven (`length + 1` steps always suffice:
every step either consumes a non-empty match or advances one character). -/
def moneyFindallFuel : Nat → List Char → List (List Char)
  | 0, _ => []
  | _, [] => []
  | fuel + 1, c :: cs =>
    match moneyAt (c :: cs) with
    | some (tok, rest) => tok :: moneyFindallFuel fuel rest
    | none => moneyFindallFuel fuel cs

def moneyFindall (cs : List Char) : List (List Char) :=
  moneyFindallFuel (cs.length + 1) cs

/-! ### TOTAL_KEYWORDS and the labelled-total search -/

/-- The alternation `TOTAL_KEYWORDS`, in source order (most specific first). -/
def totalKeywords : List (List Char) :=
  [ "grand total".data, "total due".data, "amount due".data,
    "balance due".data, "amount payable".data, "net total".data,
    "invoice total".data, "total amount".data, "total".data ]

/-- `[^\d]{0,budget}` followed by the captured MONEY_PATTERN: greedily consume
non-digits, backtracking outward, and return regex group 1 (the money token). -/
def gapMoney : Nat → List Char → Option (List Char)
  | budget + 1, c :: rest =>
    if !c.isDigit then
      match gapMoney budget rest with
      | some t => some t
      | none => (moneyAt (c :: rest)).map Prod.fst
    else (moneyAt (c :: rest)).map Prod.fst
  | _, cs => (moneyAt cs).map Prod.fst

/-- Try each keyword alternative (in order) at the current position, feeding
the remainder to `k`; alternation backtracks to later alternatives. -/
def kwAltsGo (kws : List (List Char)) (cs : List Char)
    (k : List Char → Option (List Char)) : Option (List Char) :=
  match kws with
  | [] => none
  | kw :: rest =>
    match (caselessDrop kw cs).bind k with
    | some t => some t
    | none => kwAltsGo rest cs k

/-- `re.search` for `TOTAL_KEYWORDS[^\d]{0,gap}(MONEY_PATTERN)` (IGNORECASE,
DOTALL): leftmost position wins; returns group 1. -/
def labeledSearch (gap : Nat) : List Char → Option (List Char)
  | [] => none
  | c :: cs =>
    match kwAltsGo totalKeywords (c :: cs) (gapMoney gap) with
    | some t => some t
    | none => labeledSearch gap cs

/-! ### parse_amount_to_float -/

/-- `str.rfind`-style last index of `c` in `s` (only consulted when present). -/
def rfindAux (c : Char) : List Char → Nat → Option Nat
  | [], _ => none
  | x :: xs, i =>
    match rfindAux c xs (i + 1) with
    | some j => some j
    | none => if x == c then some i else none

/-- Characters kept by `re.sub(r'[^\d,.\-]', '', s)`. -/
def keepAmountCh (c : Char) : Bool :=
  c.isDigit || c == ',' || c == '.' || c == '-'

def natVal (cs : List Char) : Nat :=
  cs.foldl (fun a c => a * 10 + (c.toNat - 48)) 0

/-- The value of a Python float reachable from this character set: a finite
double or one of the two infinities.  Finite values are carried as exact
rationals: the claims below depend only on the sign and the two-decimal
shape of finite values, which the rounding to the nearest IEEE 754 binary64
preserves.  NaN is unreachable (the inputs contain only digits, '.' and
'-'). -/
inductive PyFloat : Type where
  | finite (q : Rat) : PyFloat
  | posInf : PyFloat
  | negInf : PyFloat
deriving DecidableEq

/-- The round-to-nearest-even overflow threshold of IEEE 754 binary64:
`float(s)` (C `strtod`) yields +inf exactly when the decimal magnitude is at
least `2^1024 - 2^970` (the midpoint above DBL_MAX, which ties to the even
non-representable `2^1024`); it does not raise.  The powers are written as
`(2^128)^8` and `(2^128)^7 * 2^74` so that evaluation stays shallow. -/
def floatOverflowBound : Rat :=
  mkRat (Int.ofNat (((2 ^ 128) ^ 8) - ((2 ^ 128) ^ 7) * 2 ^ 74)) 1

/-- Saturating conversion of a non-negative exact decimal magnitude. -/
def pyOfRat (q : Rat) : PyFloat :=
  if Rat.blt q floatOverflowBound then PyFloat.finite q else PyFloat.posInf

/-- `strtod` applies the sign after converting the magnitude. -/
def pyNeg : PyFloat → PyFloat
  | PyFloat.finite q => PyFloat.finite (Rat.neg q)
  | PyFloat.posInf => PyFloat.negInf
  | PyFloat.negInf => PyFloat.posInf

/-- Python `float(s)` restricted to the character set reachable here
(digits, '.', '-'): optional leading minus, digits with at most one dot and
at least one digit in total; anything else raises, i.e. is `none`.  The
magnitude `intpart.frac` is the exact rational
`(intpart * 10^k + frac) / 10^k` with `k` the fraction length (`mkRat` is
used instead of the `Rat` field operations so that terms reduce), saturated
to +inf at the binary64 overflow threshold. -/
def pythonFloatUnsigned (cs : List Char) : Option PyFloat :=
  match cs.dropWhile Char.isDigit with
  | [] =>
    if (cs.takeWhile Char.isDigit).isEmpty then none
    else some (pyOfRat (mkRat (Int.ofNat (natVal cs)) 1))
  | '.' :: frac =>
    if frac.all Char.isDigit &&
        !((cs.takeWhile Char.isDigit).isEmpty && frac.isEmpty) then
      some (pyOfRat (mkRat
        (Int.ofNat (natVal (cs.takeWhile Char.isDigit) * 10 ^ frac.length +
          natVal frac))
        (10 ^ frac.length)))
    else none
  | _ => none

def pythonFloat (cs : List Char) : Option PyFloat :=
  match cs with
  | '-' :: rest => (pythonFloatUnsigned rest).map pyNeg
  | _ => pythonFloatUnsigned cs

/-- `parse_amount_to_float` on the character-list representation. -/
def parse_amount_core (amount_str : List Char) : Option PyFloat :=
  if amount_str.isEmpty then none
  else
    let s := (pyStrip amount_str).filter keepAmountCh
    if s.isEmpty then none
    else
      let s2 :=
        if 0 < s.countP (fun c => c == ',') && 0 < s.countP (fun c => c == '.') then
          if (rfindAux ',' s 0).getD 0 > (rfindAux '.' s 0).getD 0 then
            (s.filter (fun c => c != '.')).map (fun c => if c == ',' then '.' else c)
          else s.filter (fun c => c != ',')
        else if 0 < s.countP (fun c => c == ',') then
          if (s.reverse.takeWhile (fun c => c != ',')).length == 2 then
            s.map (fun c => if c == ',' then '.' else c)
          else s.filter (fun c => c != ',')
        else s
      pythonFloat s2

/-- `parse_amount_to_float` with the source's string signature. -/
def parse_amount_to_float (amount_str : String) : Option PyFloat :=
  parse_amount_core amount_str.data

/-! ### Formatting `f"{x:.2f}"` -/

/-- Round half to even to the nearest integer.  The fractional part
`q - ⌊q⌋` is written as `mkRat (q.num - ⌊q⌋ * q.den) q.den` so that every
step reduces (the library's `Rat.sub` is irreducible). -/
def roundHalfEven (q : Rat) : Int :=
  let n := q.floor
  let r := mkRat (q.num - n * (q.den : Int)) q.den
  if Rat.blt r (mkRat 1 2) then n
  else if Rat.blt (mkRat 1 2) r then n + 1
  else if n % 2 = 0 then n else n + 1

/-- Decimal digits of a natural number, most significant first (fuel-driven,
`n + 1` steps suffice). -/
def natDigitsAux : Nat → Nat → List Char → List Char
  | 0, _, acc => acc
  | fuel + 1, n, acc =>
    if n < 10 then Nat.digitChar n :: acc
    else natDigitsAux fuel (n / 10) (Nat.digitChar (n % 10) :: acc)

def natDigitsList (n : Nat) : List Char :=
  natDigitsAux (n + 1) n []

/-- Two-digit zero-padded rendering, for values below 100. -/
def pad2 (n : Nat) : List Char :=
  [Nat.digitChar (n / 10), Nat.digitChar (n % 10)]

def fmt2NatList (n : Nat) : List Char :=
  natDigitsList (n / 100) ++ '.' :: pad2 (n % 100)

/-- Scaling by 100, written on the numerator so that it reduces. -/
def ratScale100 (q : Rat) : Rat := mkRat (q.num * 100) q.den

/-- `f"{x:.2f}"` on the float model: a finite value is rendered from its
exact rational (sign test on the numerator, which carries the sign of a
`Rat`); the infinities print as Python prints them. -/
def fmt2 : PyFloat → String
  | PyFloat.posInf => "inf"
  | PyFloat.negInf => "-inf"
  | PyFloat.finite q =>
    if q.num < 0 then
      String.mk ('-' :: fmt2NatList (roundHalfEven (ratScale100 (Rat.neg q))).toNat)
    else String.mk (fmt2NatList (roundHalfEven (ratScale100 q)).toNat)

/-! ### extract_total -/

/-- Strict comparison on the float model (the infinities compare as in
IEEE arithmetic; finite values by their rationals). -/
def pyBlt : PyFloat → PyFloat → Bool
  | PyFloat.finite a, PyFloat.finite b => Rat.blt a b
  | PyFloat.finite _, PyFloat.posInf => true
  | PyFloat.negInf, PyFloat.finite _ => true
  | PyFloat.negInf, PyFloat.posInf => true
  | _, _ => false

/-- `max` on the float model (`b` wins only when strictly greater, as in
Python's `max` over a list). -/
def pyMax (a b : PyFloat) : PyFloat := if pyBlt a b then b else a

/-- The shared tail of `extract_total`: collect all MONEY_PATTERN tokens,
append them to the debug candidates, and return the maximum parsed value
(tokens whose parse fails are dropped by the list comprehension). -/
def totalFallback (t : List Char) (pre : List String) : String × List String :=
  match (moneyFindall t).filterMap parse_amount_core with
  | [] => ("Not found", pre ++ (moneyFindall t).map String.mk)
  | q :: qs => (fmt2 (qs.foldl pyMax q), pre ++ (moneyFindall t).map String.mk)

/-- `extract_total(text, gap_max_chars)`: labelled total first, then the
max-of-all-monetary-tokens fallback. -/
def extract_total (text : String) (gap_max_chars : Nat) : String × List String :=
  match labeledSearch gap_max_chars (cleanOcrChars text.data) with
  | some amtRaw =>
    match parse_amount_core amtRaw with
    | some q => (fmt2 q, [String.mk amtRaw])
    | none => totalFallback (cleanOcrChars text.data) [String.mk amtRaw]
  | none => totalFallback (cleanOcrChars text.data) []

/-! ### datetime.strptime, modelled from CPython's `_strptime` directive
regexes, with the `datetime` constructor's calendar validation.

Directive parsers produce the list of (value, remainder) alternatives in the
order the regex engine tries them; `altsRun` then feeds them to the
continuation with backtracking. -/

def altsRun {α : Type} (alts : List (Nat × List Char))
    (k : Nat → List Char → Option α) : Option α :=
  match alts with
  | [] => none
  | (v, r) :: rest =>
    match k v r with
    | some x => some x
    | none => altsRun rest k

def charBetween (lo hi c : Char) : Bool :=
  lo.toNat ≤ c.toNat && c.toNat ≤ hi.toNat

def charVal (c : Char) : Nat := c.toNat - 48

/-- `%m` = `1[0-2]|0[1-9]|[1-9]`, alternatives in regex order. -/
def pMAlts (cs : List Char) : List (Nat × List Char) :=
  (match cs with
   | '1' :: c :: rest =>
     if charBetween '0' '2' c then [(10 + charVal c, rest)] else []
   | _ => []) ++
  (match cs with
   | '0' :: c :: rest =>
     if charBetween '1' '9' c then [(charVal c, rest)] else []
   | _ => []) ++
  (match cs with
   | c :: rest => if charBetween '1' '9' c then [(charVal c, rest)] else []
   | _ => [])

/-- `%d` = `3[01]|[12]\d|0[1-9]|[1-9]`, alternatives in regex order. -/
def pDAlts (cs : List Char) : List (Nat × List Char) :=
  (match cs with
   | '3' :: c :: rest =>
     if charBetween '0' '1' c then [(30 + charVal c, rest)] else []
   | _ => []) ++
  (match cs with
   | c :: d :: rest =>
     if charBetween '1' '2' c && d.isDigit then
       [(10 * charVal c + charVal d, rest)] else []
   | _ => []) ++
  (match cs with
   | '0' :: c :: rest =>
     if charBetween '1' '9' c then [(charVal c, rest)] else []
   | _ => []) ++
  (match cs with
   | c :: rest => if charBetween '1' '9' c then [(charVal c, rest)] else []
   | _ => [])

/-- `%Y` = `\d\d\d\d` (exactly four digits). -/
def pY4Alts (cs : List Char) : List (Nat × List Char) :=
  match cs with
  | a :: b :: c :: d :: rest =>
    if a.isDigit && b.isDigit && c.isDigit && d.isDigit then
      [(1000 * charVal a + 100 * charVal b + 10 * charVal c + charVal d, rest)]
    else []
  | _ => []

/-- `%y` = `\d\d`, with CPython's century pivot (00–68 → 2000s, 69–99 → 1900s). -/
def pY2Alts (cs : List Char) : List (Nat × List Char) :=
  match cs with
  | a :: b :: rest =>
    if a.isDigit && b.isDigit then
      [(if 10 * charVal a + charVal b ≤ 68 then 2000 + 10 * charVal a + charVal b
        else 1900 + 10 * charVal a + charVal b, rest)]
    else []
  | _ => []

def monthAbbrevs : List (List Char × Nat) :=
  [ ("jan".data, 1), ("feb".data, 2), ("mar".data, 3), ("apr".data, 4),
    ("may".data, 5), ("jun".data, 6), ("jul".data, 7), ("aug".data, 8),
    ("sep".data, 9), ("oct".data, 10), ("nov".data, 11), ("dec".data, 12) ]

def monthFulls : List (List Char × Nat) :=
  [ ("january".data, 1), ("february".data, 2), ("march".data, 3),
    ("april".data, 4), ("may".data, 5), ("june".data, 6), ("july".data, 7),
    ("august".data, 8), ("september".data, 9), ("october".data, 10),
    ("november".data, 11), ("december".data, 12) ]

/-- `%b` (abbreviated month name, case-insensitive). -/
def pMonBAlts (cs : List Char) : List (Nat × List Char) :=
  monthAbbrevs.filterMap (fun nm =>
    (caselessDrop nm.1 cs).map (fun r => (nm.2, r)))

/-- `%B` (full month name, case-insensitive). -/
def pMonFullAlts (cs : List Char) : List (Nat × List Char) :=
  monthFulls.filterMap (fun nm =>
    (caselessDrop nm.1 cs).map (fun r => (nm.2, r)))

/-- A literal character in the format string. -/
def pLit {α : Type} (a : Char) (cs : List Char) (k : List Char → Option α) :
    Option α :=
  match cs with
  | c :: rest => if c == a then k rest else none
  | [] => none

/-- A blank in the format string, compiled by `_strptime` to `\s+`
(greedy with backtracking). -/
def pWsPlus {α : Type} (cs : List Char) (k : List Char → Option α) : Option α :=
  match cs with
  | c :: rest =>
    if isPyWs c then
      match pWsPlus rest k with
      | some x => some x
      | none => k rest
    else none
  | [] => none

def isLeapYear (y : Nat) : Bool :=
  y % 4 == 0 && (y % 100 != 0 || y % 400 == 0)

def daysInMonth (y m : Nat) : Nat :=
  if m == 2 then (if isLeapYear y then 29 else 28)
  else if m == 4 || m == 6 || m == 9 || m == 11 then 30
  else 31

/-- `datetime(year, month, day)`: raises (returns `none`) outside
MINYEAR..MAXYEAR = 1..9999, month 1..12, day 1..days_in_month. -/
def mkValidDate (y m d : Nat) : Option (Nat × Nat × Nat) :=
  if 1 ≤ y ∧ y ≤ 9999 ∧ 1 ≤ m ∧ m ≤ 12 ∧ 1 ≤ d ∧ d ≤ daysInMonth y m then
    some (y, m, d)
  else none

/-- `strptime` requires the whole string to be consumed. -/
def pEnd {α : Type} (cs : List Char) (v : Option α) : Option α :=
  match cs with
  | [] => v
  | _ :: _ => none

/-- Formats `"%m<sep>%d<sep>%Y"` and `"%m<sep>%d<sep>%y"`. -/
def fmtMDY (sep : Char) (yearLong : Bool) (raw : List Char) :
    Option (Nat × Nat × Nat) :=
  altsRun (pMAlts raw) (fun m r =>
    pLit sep r (fun r =>
      altsRun (pDAlts r) (fun d r =>
        pLit sep r (fun r =>
          altsRun (if yearLong then pY4Alts r else pY2Alts r) (fun y r =>
            pEnd r (mkValidDate y m d))))))

/-- Formats `"%Y<sep>%m<sep>%d"`. -/
def fmtYMD (sep : Char) (raw : List Char) : Option (Nat × Nat × Nat) :=
  altsRun (pY4Alts raw) (fun y r =>
    pLit sep r (fun r =>
      altsRun (pMAlts r) (fun m r =>
        pLit sep r (fun r =>
          altsRun (pDAlts r) (fun d r =>
            pEnd r (mkValidDate y m d))))))

/-- Formats `"%b %d %Y"` / `"%B %d %Y"`. -/
def fmtMonDY (full : Bool) (raw : List Char) : Option (Nat × Nat × Nat) :=
  altsRun (if full then pMonFullAlts raw else pMonBAlts raw) (fun m r =>
    pWsPlus r (fun r =>
      altsRun (pDAlts r) (fun d r =>
        pWsPlus r (fun r =>
          altsRun (pY4Alts r) (fun y r =>
            pEnd r (mkValidDate y m d))))))

/-- Formats `"%b %d, %Y"` / `"%B %d, %Y"`. -/
def fmtMonDCommaY (full : Bool) (raw : List Char) : Option (Nat × Nat × Nat) :=
  altsRun (if full then pMonFullAlts raw else pMonBAlts raw) (fun m r =>
    pWsPlus r (fun r =>
      altsRun (pDAlts r) (fun d r =>
        pLit ',' r (fun r =>
          pWsPlus r (fun r =>
            altsRun (pY4Alts r) (fun y r =>
              pEnd r (mkValidDate y m d)))))))

/-- The `possible_formats` loop: the ten templates in source order, first
successful parse wins (a template that regex-matches but fails calendar
validation raises `ValueError` and the loop continues). -/
def tryFormats (raw : List Char) : Option (Nat × Nat × Nat) :=
  fmtMDY '/' true raw <|> fmtMDY '/' false raw <|>
  fmtMDY '-' true raw <|> fmtMDY '-' false raw <|>
  fmtYMD '-' raw <|> fmtYMD '/' raw <|>
  fmtMonDY false raw <|> fmtMonDY true raw <|>
  fmtMonDCommaY false raw <|> fmtMonDCommaY true raw

/-! ### The three date pattern families and `re.search` over them -/

/-- `[/ -]` separator. -/
def mDateSep (cs : List Char) (k : List Char → MRes) : MRes :=
  match cs with
  | c :: rest => if c == '/' || c == '-' then consHead c (k rest) else none
  | [] => none

/-- `\d{1,2}` (greedy). -/
def mDigits12 (cs : List Char) (k : List Char → MRes) : MRes :=
  mDigitsN 2 cs k <|> mDigitsN 1 cs k

/-- `\d{2,4}` (greedy). -/
def mDigits24 (cs : List Char) (k : List Char → MRes) : MRes :=
  mDigitsN 4 cs k <|> mDigitsN 3 cs k <|> mDigitsN 2 cs k

/-- A final `\b`: the previous character is a word character here, so the next
one must not be (or the input must end). -/
def mBoundaryEnd (cs : List Char) : MRes :=
  match cs with
  | [] => some ([], [])
  | c :: _ => if isWordCh c then none else some ([], cs)

/-- `\d{1,2}[/ -]\d{1,2}[/ -]\d{2,4}\b` anchored at the head. -/
def fam1At (cs : List Char) : MRes :=
  mDigits12 cs (fun r =>
    mDateSep r (fun r =>
      mDigits12 r (fun r =>
        mDateSep r (fun r =>
          mDigits24 r mBoundaryEnd))))

/-- `\d{4}[/ -]\d{1,2}[/ -]\d{1,2}\b` anchored at the head. -/
def fam2At (cs : List Char) : MRes :=
  mDigitsN 4 cs (fun r =>
    mDateSep r (fun r =>
      mDigits12 r (fun r =>
        mDateSep r (fun r =>
          mDigits12 r mBoundaryEnd))))

/-- `[a-z]*` under IGNORECASE: ASCII letters, greedy with backtracking. -/
def mLettersStar (cs : List Char) (k : List Char → MRes) : MRes :=
  match cs with
  | c :: rest =>
    if c.isAlpha then
      match consHead c (mLettersStar rest k) with
      | some x => some x
      | none => k cs
    else k cs
  | [] => k cs

/-- `[ .-]?` (greedy option). -/
def mOptSep (cs : List Char) (k : List Char → MRes) : MRes :=
  match cs with
  | c :: rest =>
    if c == ' ' || c == '.' || c == '-' then
      match consHead c (k rest) with
      | some x => some x
      | none => k cs
    else k cs
  | [] => k cs

/-- `,?` (greedy option). -/
def mOptComma (cs : List Char) (k : List Char → MRes) : MRes :=
  match cs with
  | ',' :: rest =>
    match consHead ',' (k rest) with
    | some x => some x
    | none => k cs
  | _ => k cs

/-- The month-name alternation `(?:Jan|...|Dec)` (IGNORECASE): at most one
three-letter alternative matches at a given position. -/
def monthPrefixAt (cs : List Char) : Option (List Char × List Char) :=
  match cs with
  | a :: b :: c :: rest =>
    if monthAbbrevs.any (fun nm => nm.1 == [a.toLower, b.toLower, c.toLower]) then
      some ([a, b, c], rest)
    else none
  | _ => none

/-- `(?:Jan|…|Dec)[a-z]*[ .-]?\d{1,2},?[ .-]?\d{2,4}\b` anchored at the head. -/
def fam3At (cs : List Char) : MRes :=
  match monthPrefixAt cs with
  | none => none
  | some (m3, rest) =>
    match mLettersStar rest (fun r =>
        mOptSep r (fun r =>
          mDigits12 r (fun r =>
            mOptComma r (fun r =>
              mOptSep r (fun r =>
                mDigits24 r mBoundaryEnd))))) with
    | some (t, rem) => some (m3 ++ t, rem)
    | none => none

/-- `re.search` for a `\b`-prefixed pattern whose first character is a word
character: scan left to right, a position qualifies only when the previous
character is not a word character. Returns group 0. -/
def searchBnd (pat : List Char → MRes) : Bool → List Char → Option (List Char)
  | _, [] => none
  | prevW, c :: cs =>
    match (if prevW then none else (pat (c :: cs)).map Prod.fst) with
    | some tok => some tok
    | none => searchBnd pat (isWordCh c) cs

/-! ### extract_date (service module) and its batch-script duplicate -/

/-- `strftime("%Y-%m-%d")` under glibc: the year is printed unpadded (years
of the reachable parses are at most 9999), month and day zero-padded to 2. -/
def fmtDate (y m d : Nat) : String :=
  String.mk (natDigitsList y ++ '-' :: pad2 m ++ '-' :: pad2 d)

def fmtDateYMD (x : Nat × Nat × Nat) : String := fmtDate x.1 x.2.1 x.2.2

/-- Third iteration of the pattern loop (month-name family). -/
def datePass3 (t : List Char) : String :=
  match searchBnd fam3At false t with
  | some raw =>
    match tryFormats raw with
    | some ymd => fmtDateYMD ymd
    | none => "Not found"
  | none => "Not found"

/-- Second iteration of the pattern loop (ISO-like family). -/
def datePass2 (t : List Char) : String :=
  match searchBnd fam2At false t with
  | some raw =>
    match tryFormats raw with
    | some ymd => fmtDateYMD ymd
    | none => datePass3 t
  | none => datePass3 t

/-- `extract_date` from src/main.py: clean the text for date matching, try
the three pattern families in order, parse the first match against the
template list, and fall through to the next family on any failure. -/
def extract_date (text : String) : String :=
  match searchBnd fam1At false (cleanDatesChars text.data) with
  | some raw =>
    match tryFormats raw with
    | some ymd => fmtDateYMD ymd
    | none => datePass2 (cleanDatesChars text.data)
  | none => datePass2 (cleanDatesChars text.data)

end DocParse

namespace BatchProcessor

open DocParse

/-- The second entry of the batch script's `date_patterns` list: the ISO
pattern and the month-name pattern concatenated by adjacent string literals
(the missing comma in the source), i.e.
`\b\d{4}[/ -]\d{1,2}[/ -]\d{1,2}\b\b(?:Jan|…)[a-z]*[ .-]?\d{1,2},?[ .-]?\d{2,4}\b`
as a single regex. -/
def batchConcatAt (cs : List Char) : MRes :=
  mDigitsN 4 cs (fun r =>
    mDateSep r (fun r =>
      mDigits12 r (fun r =>
        mDateSep r (fun r =>
          mDigits12 r (fun r =>
            match r with
            | [] => fam3At []
            | c :: _ => if isWordCh c then none else
                match fam3At r with
                | some (t, rem) => some (t, rem)
                | none => none)))))

/-- Second iteration of the batch script's pattern loop (the concatenated
pattern). -/
def batchPass2 (t : List Char) : String :=
  match searchBnd batchConcatAt false t with
  | some raw =>
    match tryFormats raw with
    | some ymd => fmtDateYMD ymd
    | none => "Not found"
  | none => "Not found"

/-- `extract_date` from src/BatchProcessor.py: identical cleaning, identical
first pattern and template list, but only two patterns in the list. -/
def extract_date (text : String) : String :=
  match searchBnd fam1At false (cleanDatesChars text.data) with
  | some raw =>
    match tryFormats raw with
    | some ymd => fmtDateYMD ymd
    | none => batchPass2 (cleanDatesChars text.data)
  | none => batchPass2 (cleanDatesChars text.data)

end BatchProcessor

namespace DocParse

/-! ### extract_vendor -/

/-- `str.splitlines` (no trailing empty segment; `\r\n` counts once). -/
def splitlinesAux : List Char → List Char → List (List Char)
  | [], acc => if acc.isEmpty then [] else [acc.reverse]
  | '\r' :: '\n' :: rest, acc => acc.reverse :: splitlinesAux rest []
  | c :: rest, acc =>
    if isLineBreak c then acc.reverse :: splitlinesAux rest []
    else splitlinesAux rest (c :: acc)

def splitlinesChars (cs : List Char) : List (List Char) :=
  splitlinesAux cs []

/-- The keyword alternation of `VENDOR_SKIP_KEYWORDS`, in source order.  The
pattern is anchored with `^` and searched without MULTILINE, so it is a
prefix test on the lowercased line. -/
def vendorSkipKeywords : List (List Char) :=
  [ "invoice".data, "invoice no".data, "invoice #".data, "invoice number".data,
    "date".data, "due".data, "page".data, "total".data, "tax".data,
    "phone".data, "tel".data, "fax".data, "bill to".data, "ship to".data,
    "amount".data, "balance".data, "subtotal".data, "description".data,
    "item".data, "quantity".data, "qty".data, "account".data, "address".data,
    "order".data, "ship".data, "email".data, "page".data ]

/-- `COMPANY_HINTS` word list. -/
def companyHintWords : List (List Char) :=
  [ "inc".data, "llc".data, "ltd".data, "co".data, "corp".data,
    "corporation".data, "company".data, "gmbh".data, "plc".data ]

/-- One hint word matches caselessly here and is followed by a word
boundary. -/
def hintAt (cs : List Char) : Bool :=
  companyHintWords.any (fun h =>
    match caselessDrop h cs with
    | some [] => true
    | some (c :: _) => !isWordCh c
    | none => false)

/-- `COMPANY_HINTS.search(line)`: `\b(inc|llc|...)\b`, IGNORECASE; scan with
word-boundary tracking (every hint begins with a letter, so the boundary
before it amounts to the previous character not being a word character). -/
def companyHintScan : Bool → List Char → Bool
  | _, [] => false
  | prevW, c :: cs =>
    (!prevW && hintAt (c :: cs)) || companyHintScan (isWordCh c) cs

/-- `re.match(r'^[\d\W]{1,}$', line)`: the line is non-empty and has no
character that is a letter or an underscore (digits are in the class, all
other word characters are excluded). -/
def allDigitOrNonWord (cs : List Char) : Bool :=
  !cs.isEmpty && cs.all (fun c => !c.isAlpha && c != '_')

/-- `len(line.split())`: number of maximal non-whitespace runs. -/
def wordCountAux : Bool → List Char → Nat
  | _, [] => 0
  | inW, c :: cs =>
    if isPyWs c then wordCountAux false cs
    else (if inW then 0 else 1) + wordCountAux true cs

def wordCount (cs : List Char) : Nat := wordCountAux false cs

/-- The scoring step of `extract_vendor` for one surviving line. -/
def vendorScore (line : List Char) : Nat :=
  (if companyHintScan false line then 5 else 0) +
  (if 1 < wordCount line ∧ wordCount line ≤ 6 then 2 else 0) +
  (if line.countP Char.isDigit < line.countP Char.isAlpha then 1 else 0)

/-- The filtering step: skip-keyword prefix on the lowercased line, the
all-digits/non-word test, and the contact/URL test (these substring tests run
on the original line, case-sensitively, as in the source). -/
def vendorSkip (line : List Char) : Bool :=
  vendorSkipKeywords.any (fun kw => kw.isPrefixOf (toLowerList line)) ||
  allDigitOrNonWord line ||
  line.contains '@' || hasSubstr "http".data line || hasSubstr "www".data line

/-- The candidate loop: `(score, original index, line)` for each surviving
line among the first `top_n_lines`. -/
def vendorScan : Nat → List (List Char) → List (Nat × Nat × List Char)
  | _, [] => []
  | i, l :: rest =>
    if vendorSkip l then vendorScan (i + 1) rest
    else (vendorScore l, i, l) :: vendorScan (i + 1) rest

/-- `list.sort(key=lambda x: (-x[0], x[1]))`: score descending, original
index ascending.  Indices are pairwise distinct, so the sorted list is the
unique one for this total order; a stable insertion sort realises it. -/
def vendorLe (a b : Nat × Nat × List Char) : Bool :=
  b.1 < a.1 || (a.1 == b.1 && a.2.1 ≤ b.2.1)

def insertBy {α : Type} (le : α → α → Bool) (x : α) : List α → List α
  | [] => [x]
  | y :: ys => if le x y then x :: y :: ys else y :: insertBy le x ys

def sortBy {α : Type} (le : α → α → Bool) : List α → List α
  | [] => []
  | x :: xs => insertBy le x (sortBy le xs)

/-- The stripped non-blank lines of the cleaned text. -/
def vendorLinesOf (text : String) : List (List Char) :=
  ((splitlinesChars (cleanOcrChars text.data)).map pyStrip).filter
    (fun l => !l.isEmpty)

/-- `extract_vendor` after the line-splitting step. -/
def vendorFromLines (lines : List (List Char)) (top_n_lines : Nat) :
    String × List String :=
  match vendorScan 0 (lines.take top_n_lines) with
  | [] =>
    match lines with
    | [] => ("Unknown", [])
    | l :: _ => (String.mk l, [])
  | c :: cs =>
    match sortBy vendorLe (c :: cs) with
    | [] => ("Unknown", [])
    | b :: bs => (String.mk b.2.2, (b :: bs).map (fun x => String.mk x.2.2))

/-- `extract_vendor(text, top_n_lines)` from src/main.py. -/
def extract_vendor (text : String) (top_n_lines : Nat) : String × List String :=
  vendorFromLines (vendorLinesOf text) top_n_lines

/-! ### The API-key middleware (`require_api_key`) -/

/-- The two outcomes of the middleware: pass the request to `call_next`, or
answer 401. -/
inductive ApiResponse : Type where
  | forwarded : ApiResponse
  | unauthorized : ApiResponse
deriving DecidableEq

/-- The paths exempted from the API-key check. -/
def openPaths : List String := ["/ping", "/docs", "/openapi.json"]

/-- `require_api_key`: `request.headers.get("x-api-key")` and
`os.getenv("API_KEY")` are both `Option String` (`None` when absent), and the
gate compares them with `!=`. -/
def require_api_key (path : String) (clientKey serverKey : Option String) :
    ApiResponse :=
  if path ∈ openPaths then ApiResponse.forwarded
  else if clientKey = serverKey then ApiResponse.forwarded
  else ApiResponse.unauthorized

/-! ### Canonical-format predicates, stated from the specification's words
(`YYYY-MM-DD`; fixed two decimal places, no thousands separators, no
currency symbol).  These are the spec side of the format-invariant claim and
are deliberately not derived from the source. -/

/-- Spec: four digits, dash, two digits, dash, two digits. -/
def isCanonicalDate (s : String) : Bool :=
  match s.data with
  | [y1, y2, y3, y4, h1, m1, m2, h2, d1, d2] =>
    y1.isDigit && y2.isDigit && y3.isDigit && y4.isDigit && h1 == '-' &&
    m1.isDigit && m2.isDigit && h2 == '-' && d1.isDigit && d2.isDigit
  | _ => false

/-- Spec: a decimal numeral with exactly two fractional digits, no thousands
separators, no currency symbol (digits, one dot, two digits). -/
def isCanonicalAmount (s : String) : Bool :=
  match s.data.reverse with
  | b :: a :: p :: rest =>
    p == '.' && a.isDigit && b.isDigit && !rest.isEmpty &&
    rest.all Char.isDigit
  | _ => false

/-- An input whose single monetary token, `1` followed by 103 thousands
groups `,000` and the tail `.00`, normalizes to the 310-digit value
`10^309`, which overflows the binary64 range: `float()` saturates to +inf
and `extract_total` returns the string "inf". -/
def overflowMoneyText : String :=
  String.mk ('1' :: (List.replicate 103 [',', '0', '0', '0']).flatten ++
    ['.', '0', '0'])

end DocParse

namespace DocParse

/-! ## Claim theorems -/

/-- C1: evaluation of `extract_total` at the specification's two amount
examples.  On the first input the code's keyword scan, lacking a word
boundary, matches the substring "total" inside "Subtotal" at the leftmost
position and returns the subtotal: chosen "80.00" with candidates ["80.00"],
not the specified "123.45".  The second, unlabeled input does return the
maximum, "1234.56". -/
theorem c1_total_examples_on_code :
    extract_total "Subtotal: $80.00 ... TOTAL DUE $123.45" 80 =
      ("80.00", ["80.00"]) ∧
    extract_total "$1,234.56 and $999.00" 80 =
      ("1234.56", ["$1,234.56", "$999.00"]) := by
  constructor <;> decide

/-- C6: the separator-ambiguity resolution of `parse_amount_to_float` on the
specification's four examples. -/
theorem c6_parse_amount_separator_resolution :
    parse_amount_to_float "1.234,56" = some (PyFloat.finite (mkRat 123456 100)) ∧
    parse_amount_to_float "1,234.56" = some (PyFloat.finite (mkRat 123456 100)) ∧
    parse_amount_to_float "1,23" = some (PyFloat.finite (mkRat 123 100)) ∧
    parse_amount_to_float "1,234" = some (PyFloat.finite (mkRat 1234 1)) := by
  refine ⟨by decide, by decide, by decide, by decide⟩

/-- C3 counterexample: the two date extractors are not the same function.
On "2014-05-01" the service module's extractor returns "2014-05-01" while
the batch script's returns "Not found" (its second pattern is the
accidental concatenation of the ISO and month-name regexes and cannot match
an ISO date on its own). -/
theorem c3_counterexample :
    DocParse.extract_date "2014-05-01" = "2014-05-01" ∧
    BatchProcessor.extract_date "2014-05-01" = "Not found" ∧
    BatchProcessor.extract_date "2014-05-01" ≠ DocParse.extract_date "2014-05-01" := by
  refine ⟨by decide, by decide, by decide⟩

/-- C3 amended: the two date extractors agree on every text on which the
shared first pattern family (1–2 digit day/month with / or - separators)
finds a match that parses under the shared template list; they differ in
general, because the batch script's remaining pattern is the unintended
concatenation of the ISO and month-name patterns. -/
theorem c3_amended_fam1_agreement (text : String) (raw : List Char)
    (ymd : Nat × Nat × Nat)
    (h1 : searchBnd fam1At false (cleanDatesChars text.data) = some raw)
    (h2 : tryFormats raw = some ymd) :
    BatchProcessor.extract_date text = DocParse.extract_date text := by
  simp only [DocParse.extract_date, BatchProcessor.extract_date, h1, h2]

/-- C3 amended, witness: on "5/1/2014" the first family matches and parses,
and the two extractors agree. -/
theorem c3_amended_witness :
    searchBnd fam1At false (cleanDatesChars ("5/1/2014").data) =
      some ("5/1/2014").data ∧
    tryFormats ("5/1/2014").data = some (2014, 5, 1) ∧
    BatchProcessor.extract_date "5/1/2014" = DocParse.extract_date "5/1/2014" :=
  ⟨by decide, by decide,
   c3_amended_fam1_agreement "5/1/2014" ("5/1/2014").data (2014, 5, 1)
     (by decide) (by decide)⟩

/-- C5 counterexample: an input that contains "2014/05/01" but does not
yield "2014-05-01", because an earlier first-family date pre-empts the
ISO-family scan. -/
theorem c5_counterexample :
    hasSubstr ("2014/05/01").data ("6/2/2015 and 2014/05/01").data = true ∧
    extract_date "6/2/2015 and 2014/05/01" = "2015-06-02" ∧
    extract_date "6/2/2015 and 2014/05/01" ≠ "2014-05-01" := by
  refine ⟨by decide, by decide, by decide⟩

/-- C5 amended: "Invoice Date: May 1, 2014" yields "2014-05-01" (the
month-name family is reachable despite the OCR correction); the input
"2014/05/01" itself yields "2014-05-01" (an input merely containing it can
be pre-empted by an earlier match of a higher-priority family); and any
input on which none of the three pattern families matches yields
"Not found". -/
theorem c5_amended_date_examples :
    extract_date "Invoice Date: May 1, 2014" = "2014-05-01" ∧
    extract_date "2014/05/01" = "2014-05-01" ∧
    (∀ text : String,
      searchBnd fam1At false (cleanDatesChars text.data) = none →
      searchBnd fam2At false (cleanDatesChars text.data) = none →
      searchBnd fam3At false (cleanDatesChars text.data) = none →
      extract_date text = "Not found") := by
  refine ⟨by decide, by decide, ?_⟩
  intro text h1 h2 h3
  simp only [extract_date, datePass2, datePass3, h1, h2, h3]

/-- C5 amended, witness: "hello world" has no date-shaped substring and
yields "Not found". -/
theorem c5_amended_witness :
    searchBnd fam1At false (cleanDatesChars ("hello world").data) = none ∧
    extract_date "hello world" = "Not found" :=
  ⟨by decide,
   c5_amended_date_examples.2.2 "hello world" (by decide) (by decide) (by decide)⟩

set_option maxRecDepth 16384 in
/-- C2 counterexample: both halves of the claimed invariant fail on the
code.  Date: `strptime`'s %Y accepts the four-digit token "0005", and
`strftime` renders year 5 without padding, so the date result "5-01-02"
escapes the canonical `YYYY-MM-DD` format.  Amount: on a monetary token
whose 310-digit value overflows the binary64 range, `float()` saturates to
+inf without raising and the chosen total is the string "inf", not a
two-decimal numeral. -/
theorem c2_counterexample :
    (extract_date "1/2/0005" = "5-01-02" ∧
      isCanonicalDate "5-01-02" = false ∧
      extract_date "1/2/0005" ≠ "Not found") ∧
    ((extract_total overflowMoneyText 80).1 = "inf" ∧
      isCanonicalAmount "inf" = false ∧
      (extract_total overflowMoneyText 80).1 ≠ "Not found") := by
  refine ⟨⟨by decide, by decide, by decide⟩, ⟨?_, by decide, ?_⟩⟩
  · decide
  · decide

/-- C4: for any text whose stripped non-blank lines are exactly
["INVOICE #123", "Acme Corp LLC", "123 Main St"], the vendor extractor
skips the invoice line, scores "Acme Corp LLC" 8 (company hint + word count
+ letters) against 3 for the address line, and returns it as chosen. -/
theorem c4_vendor_acme (text : String)
    (h : vendorLinesOf text =
      [("INVOICE #123").data, ("Acme Corp LLC").data, ("123 Main St").data]) :
    extract_vendor text 8 = ("Acme Corp LLC", ["Acme Corp LLC", "123 Main St"]) := by
  simp only [extract_vendor, h]
  decide

/-- C4 witness: the three-line text realises the hypothesis. -/
theorem c4_vendor_acme_witness :
    vendorLinesOf "INVOICE #123\nAcme Corp LLC\n123 Main St" =
      [("INVOICE #123").data, ("Acme Corp LLC").data, ("123 Main St").data] ∧
    extract_vendor "INVOICE #123\nAcme Corp LLC\n123 Main St" 8 =
      ("Acme Corp LLC", ["Acme Corp LLC", "123 Main St"]) :=
  ⟨by decide, c4_vendor_acme "INVOICE #123\nAcme Corp LLC\n123 Main St" (by decide)⟩

/-- C9: the extraction engine is deterministic; each extractor is a pure
function of its text argument, so equal inputs give equal outputs. -/
theorem c9_extraction_deterministic (t1 t2 : String) (h : t1 = t2) :
    extract_vendor t1 8 = extract_vendor t2 8 ∧
    extract_date t1 = extract_date t2 ∧
    extract_total t1 80 = extract_total t2 80 := by
  subst h
  exact ⟨rfl, rfl, rfl⟩

/-- C9 witness: two runs on the same concrete text coincide. -/
theorem c9_extraction_deterministic_witness :
    extract_vendor "Invoice" 8 = extract_vendor "Invoice" 8 ∧
    extract_date "Invoice" = extract_date "Invoice" ∧
    extract_total "Invoice" 80 = extract_total "Invoice" 80 :=
  c9_extraction_deterministic "Invoice" "Invoice" rfl

/-- C10: for any path outside the open list, the middleware forwards the
request exactly when the client header equals the server key (both as
optional values, absent = `none`), answers 401 otherwise, and in particular
forwards when both the header and the environment variable are absent. -/
theorem c10_api_key_gate (path : String) (ck sk : Option String)
    (h : path ∉ openPaths) :
    (require_api_key path ck sk = ApiResponse.forwarded ↔ ck = sk) ∧
    (require_api_key path ck sk = ApiResponse.unauthorized ↔ ck ≠ sk) ∧
    require_api_key path none none = ApiResponse.forwarded := by
  by_cases hck : ck = sk <;> simp [require_api_key, h, hck]

/-- C10 witness: "/parse" is not an open path; an absent key pair is
forwarded, a mismatched pair is rejected. -/
theorem c10_api_key_gate_witness :
    require_api_key "/parse" none none = ApiResponse.forwarded ∧
    require_api_key "/parse" (some "k") none = ApiResponse.unauthorized :=
  ⟨(c10_api_key_gate "/parse" none none (by decide)).2.2,
   (c10_api_key_gate "/parse" (some "k") none (by decide)).2.1.mpr (by decide)⟩

end DocParse

namespace DocParse

/-- C7: if no line among the first `top_n_lines` non-blank lines survives
filtering, `extract_vendor` falls back to the first non-blank line (which is
never the empty string) with an empty candidate list; with no non-blank
lines at all, the chosen value is the sentinel "Unknown". -/
theorem c7_vendor_fallback (text : String) (n : Nat)
    (h : vendorScan 0 ((vendorLinesOf text).take n) = []) :
    (vendorLinesOf text = [] → extract_vendor text n = ("Unknown", [])) ∧
    (∀ l ls, vendorLinesOf text = l :: ls →
      extract_vendor text n = (String.mk l, []) ∧ String.mk l ≠ "") := by
  constructor
  · intro h0
    rw [h0] at h
    simp only [extract_vendor, vendorFromLines, h0, h]
  · intro l ls hl
    rw [hl] at h
    refine ⟨by simp only [extract_vendor, vendorFromLines, hl, h], ?_⟩
    have hmem : l ∈ List.filter (fun l => !l.isEmpty)
        ((splitlinesChars (cleanOcrChars text.data)).map pyStrip) := by
      have h2 := hl
      simp only [vendorLinesOf] at h2
      rw [h2]
      exact List.mem_cons_self _ _
    have hpred := (List.mem_filter.mp hmem).2
    intro he
    have hdata : l = [] := by
      have h3 := congrArg String.data he
      simpa using h3
    rw [hdata] at hpred
    simp at hpred

/-- C7 witness: a single skip-filtered line falls back to itself; an
all-blank text yields "Unknown". -/
theorem c7_vendor_fallback_witness :
    extract_vendor "INVOICE #123" 8 = ("INVOICE #123", []) ∧
    extract_vendor "" 8 = ("Unknown", []) :=
  ⟨((c7_vendor_fallback "INVOICE #123" 8 (by decide)).2 ("INVOICE #123").data []
      (by decide)).1,
   (c7_vendor_fallback "" 8 (by decide)).1 (by decide)⟩

/-- C8: amount parsing is total — `parse_amount_to_float` yields a value or
the absent value on every string, never an exception — and in the fallback
scan of `extract_total` the tokens whose normalization fails are exactly the
ones excluded from the maximum selection: when no labelled token parses, the
chosen value is the formatted maximum of the successfully parsed tokens, and
the sentinel "Not found" arises only when no token parses at all. -/
theorem c8_amount_total_and_fallback_excludes (gap : Nat) :
    (∀ s : String, parse_amount_to_float s = none ∨
      ∃ v : PyFloat, parse_amount_to_float s = some v) ∧
    (∀ text : String,
      (∀ tok, labeledSearch gap (cleanOcrChars text.data) = some tok →
        parse_amount_core tok = none) →
      ((moneyFindall (cleanOcrChars text.data)).filterMap parse_amount_core = [] →
        (extract_total text gap).1 = "Not found") ∧
      (∀ q qs,
        (moneyFindall (cleanOcrChars text.data)).filterMap parse_amount_core =
          q :: qs →
        (extract_total text gap).1 = fmt2 (qs.foldl pyMax q))) := by
  constructor
  · intro s
    cases h : parse_amount_to_float s with
    | none => exact Or.inl rfl
    | some q => exact Or.inr ⟨q, rfl⟩
  · intro text hlab
    cases hls : labeledSearch gap (cleanOcrChars text.data) with
    | none =>
      constructor
      · intro hfm
        simp only [extract_total, hls, totalFallback, hfm]
      · intro q qs hfm
        simp only [extract_total, hls, totalFallback, hfm]
    | some tok =>
      have hp := hlab tok hls
      constructor
      · intro hfm
        simp only [extract_total, hls, hp, totalFallback, hfm]
      · intro q qs hfm
        simp only [extract_total, hls, hp, totalFallback, hfm]

/-- C8 witness: the malformed token "1.234.56" fails normalization (two dots
survive untouched, `float` raises) and is excluded, while " 5.00" is still
considered and chosen. -/
theorem c8_witness :
    (parse_amount_to_float "1.234.56" = none ∨
      ∃ v : PyFloat, parse_amount_to_float "1.234.56" = some v) ∧
    (extract_total "1.234.56 and 5.00" 80).1 = "5.00" := by
  constructor
  · exact (c8_amount_total_and_fallback_excludes 80).1 "1.234.56"
  · have h := ((c8_amount_total_and_fallback_excludes 80).2 "1.234.56 and 5.00"
      (fun tok hl => by
        rw [show labeledSearch 80 (cleanOcrChars ("1.234.56 and 5.00").data) =
          none from by decide] at hl
        exact Option.noConfusion hl)).2 (PyFloat.finite (mkRat 5 1)) []
        (by decide)
    rw [h]
    decide

end DocParse

namespace DocParse

/-! ### Supporting lemmas: the date side of the canonical-format invariant -/

theorem orElse_eq_some {α : Type} {a b : Option α} {x : α}
    (h : (a <|> b) = some x) : a = some x ∨ b = some x := by
  cases a with
  | none => right; simpa using h
  | some y => left; simpa using h

theorem daysInMonth_le (y m : Nat) : daysInMonth y m ≤ 31 := by
  unfold daysInMonth
  split_ifs <;> omega

theorem mkValidDate_some {y m d : Nat} {x : Nat × Nat × Nat}
    (h : mkValidDate y m d = some x) :
    x = (y, m, d) ∧ 1 ≤ y ∧ y ≤ 9999 ∧ m ≤ 12 ∧ d ≤ 31 := by
  unfold mkValidDate at h
  split at h
  · rename_i hc
    cases h
    exact ⟨rfl, hc.1, hc.2.1, hc.2.2.2.1,
      le_trans hc.2.2.2.2.2 (daysInMonth_le y m)⟩
  · exact absurd h (by simp)

theorem pEnd_some {α : Type} {cs : List Char} {v : Option α} {x : α}
    (h : pEnd cs v = some x) : v = some x := by
  cases cs with
  | nil => exact h
  | cons c rest => exact absurd h (by simp [pEnd])

theorem altsRun_some {α : Type} {alts : List (Nat × List Char)}
    {k : Nat → List Char → Option α} {x : α}
    (h : altsRun alts k = some x) : ∃ v r, k v r = some x := by
  induction alts with
  | nil => exact absurd h (by simp [altsRun])
  | cons p rest ih =>
    obtain ⟨v, r⟩ := p
    rw [altsRun] at h
    split at h
    · rename_i y hy
      cases h
      exact ⟨v, r, hy⟩
    · exact ih h

theorem pLit_some {α : Type} {a : Char} {cs : List Char}
    {k : List Char → Option α} {x : α}
    (h : pLit a cs k = some x) : ∃ r, k r = some x := by
  unfold pLit at h
  split at h
  · split at h
    · exact ⟨_, h⟩
    · exact absurd h (by simp)
  · exact absurd h (by simp)

theorem pWsPlus_some {α : Type} {cs : List Char} {k : List Char → Option α}
    {x : α} (h : pWsPlus cs k = some x) : ∃ r, k r = some x := by
  induction cs with
  | nil => exact absurd h (by simp [pWsPlus])
  | cons c rest ih =>
    rw [pWsPlus] at h
    split at h
    · split at h
      · rename_i y hy
        cases h
        exact ih hy
      · exact ⟨rest, h⟩
    · exact absurd h (by simp)

theorem fmtMDY_some {sep : Char} {yl : Bool} {raw : List Char}
    {x : Nat × Nat × Nat} (h : fmtMDY sep yl raw = some x) :
    ∃ y m d, mkValidDate y m d = some x := by
  unfold fmtMDY at h
  obtain ⟨m, r1, h⟩ := altsRun_some h
  obtain ⟨r2, h⟩ := pLit_some h
  obtain ⟨d, r3, h⟩ := altsRun_some h
  obtain ⟨r4, h⟩ := pLit_some h
  obtain ⟨y, r5, h⟩ := altsRun_some h
  exact ⟨y, m, d, pEnd_some h⟩

theorem fmtYMD_some {sep : Char} {raw : List Char}
    {x : Nat × Nat × Nat} (h : fmtYMD sep raw = some x) :
    ∃ y m d, mkValidDate y m d = some x := by
  unfold fmtYMD at h
  obtain ⟨y, r1, h⟩ := altsRun_some h
  obtain ⟨r2, h⟩ := pLit_some h
  obtain ⟨m, r3, h⟩ := altsRun_some h
  obtain ⟨r4, h⟩ := pLit_some h
  obtain ⟨d, r5, h⟩ := altsRun_some h
  exact ⟨y, m, d, pEnd_some h⟩

theorem fmtMonDY_some {full : Bool} {raw : List Char}
    {x : Nat × Nat × Nat} (h : fmtMonDY full raw = some x) :
    ∃ y m d, mkValidDate y m d = some x := by
  unfold fmtMonDY at h
  obtain ⟨m, r1, h⟩ := altsRun_some h
  obtain ⟨r2, h⟩ := pWsPlus_some h
  obtain ⟨d, r3, h⟩ := altsRun_some h
  obtain ⟨r4, h⟩ := pWsPlus_some h
  obtain ⟨y, r5, h⟩ := altsRun_some h
  exact ⟨y, m, d, pEnd_some h⟩

theorem fmtMonDCommaY_some {full : Bool} {raw : List Char}
    {x : Nat × Nat × Nat} (h : fmtMonDCommaY full raw = some x) :
    ∃ y m d, mkValidDate y m d = some x := by
  unfold fmtMonDCommaY at h
  obtain ⟨m, r1, h⟩ := altsRun_some h
  obtain ⟨r2, h⟩ := pWsPlus_some h
  obtain ⟨d, r3, h⟩ := altsRun_some h
  obtain ⟨r4, h⟩ := pLit_some h
  obtain ⟨r5, h⟩ := pWsPlus_some h
  obtain ⟨y, r6, h⟩ := altsRun_some h
  exact ⟨y, m, d, pEnd_some h⟩

theorem tryFormats_bounds {raw : List Char} {x : Nat × Nat × Nat}
    (h : tryFormats raw = some x) :
    1 ≤ x.1 ∧ x.1 ≤ 9999 ∧ x.2.1 ≤ 12 ∧ x.2.2 ≤ 31 := by
  have main : ∀ y m d, mkValidDate y m d = some x →
      1 ≤ x.1 ∧ x.1 ≤ 9999 ∧ x.2.1 ≤ 12 ∧ x.2.2 ≤ 31 := by
    intro y m d hv
    obtain ⟨hx, h1, h2, h4, h6⟩ := mkValidDate_some hv
    subst hx
    exact ⟨h1, h2, h4, h6⟩
  unfold tryFormats at h
  rcases orElse_eq_some h with h | h
  · obtain ⟨y, m, d, hv⟩ := fmtMDY_some h; exact main y m d hv
  rcases orElse_eq_some h with h | h
  · obtain ⟨y, m, d, hv⟩ := fmtMDY_some h; exact main y m d hv
  rcases orElse_eq_some h with h | h
  · obtain ⟨y, m, d, hv⟩ := fmtMDY_some h; exact main y m d hv
  rcases orElse_eq_some h with h | h
  · obtain ⟨y, m, d, hv⟩ := fmtMDY_some h; exact main y m d hv
  rcases orElse_eq_some h with h | h
  · obtain ⟨y, m, d, hv⟩ := fmtYMD_some h; exact main y m d hv
  rcases orElse_eq_some h with h | h
  · obtain ⟨y, m, d, hv⟩ := fmtYMD_some h; exact main y m d hv
  rcases orElse_eq_some h with h | h
  · obtain ⟨y, m, d, hv⟩ := fmtMonDY_some h; exact main y m d hv
  rcases orElse_eq_some h with h | h
  · obtain ⟨y, m, d, hv⟩ := fmtMonDY_some h; exact main y m d hv
  rcases orElse_eq_some h with h | h
  · obtain ⟨y, m, d, hv⟩ := fmtMonDCommaY_some h; exact main y m d hv
  · obtain ⟨y, m, d, hv⟩ := fmtMonDCommaY_some h; exact main y m d hv

theorem digitChar_isDigit {n : Nat} (h : n < 10) :
    (Nat.digitChar n).isDigit = true := by
  interval_cases n <;> decide

theorem natDigitsAux_small {fuel n : Nat} {acc : List Char} (h : n < 10)
    (hf : 0 < fuel) : natDigitsAux fuel n acc = Nat.digitChar n :: acc := by
  cases fuel with
  | zero => omega
  | succ f =>
    rw [natDigitsAux, if_pos h]

theorem natDigitsAux_step {fuel n : Nat} {acc : List Char} (h : 10 ≤ n) :
    natDigitsAux (fuel + 1) n acc =
      natDigitsAux fuel (n / 10) (Nat.digitChar (n % 10) :: acc) := by
  rw [natDigitsAux, if_neg (by omega)]

theorem natDigitsList_four {n : Nat} (h1 : 1000 ≤ n) (h2 : n ≤ 9999) :
    ∃ a b c d : Char, natDigitsList n = [a, b, c, d] ∧
      a.isDigit = true ∧ b.isDigit = true ∧ c.isDigit = true ∧
      d.isDigit = true := by
  unfold natDigitsList
  obtain ⟨f, hf⟩ : ∃ f, n + 1 = f + 1 + 1 + 1 + 1 := ⟨n - 3, by omega⟩
  rw [hf]
  rw [natDigitsAux_step (by omega)]
  rw [natDigitsAux_step (by omega)]
  rw [natDigitsAux_step (by omega)]
  rw [natDigitsAux_small (by omega) (by omega)]
  exact ⟨_, _, _, _, rfl, digitChar_isDigit (by omega),
    digitChar_isDigit (by omega), digitChar_isDigit (by omega),
    digitChar_isDigit (by omega)⟩

theorem fmtDate_canonical {y m d : Nat} (hy1 : 1000 ≤ y) (hy2 : y ≤ 9999)
    (hm : m ≤ 99) (hd : d ≤ 99) : isCanonicalDate (fmtDate y m d) = true := by
  obtain ⟨a, b, c, e, heq, ha, hb, hc, he⟩ := natDigitsList_four hy1 hy2
  rw [fmtDate, heq]
  unfold isCanonicalDate pad2
  simp only [List.cons_append, List.nil_append]
  simp [ha, hb, hc, he, digitChar_isDigit (show m / 10 < 10 by omega),
    digitChar_isDigit (show m % 10 < 10 by omega),
    digitChar_isDigit (show d / 10 < 10 by omega),
    digitChar_isDigit (show d % 10 < 10 by omega)]

theorem dateYMD_ok {raw : List Char} {x : Nat × Nat × Nat}
    (h : tryFormats raw = some x) :
    isCanonicalDate (fmtDateYMD x) = true ∨
      ∃ y m d, y < 1000 ∧ fmtDateYMD x = fmtDate y m d := by
  obtain ⟨h1, h2, h4, h6⟩ := tryFormats_bounds h
  by_cases hy : x.1 < 1000
  · exact Or.inr ⟨x.1, x.2.1, x.2.2, hy, rfl⟩
  · exact Or.inl (fmtDate_canonical (by omega) h2 (by omega) (by omega))

theorem datePass3_ok (t : List Char) :
    datePass3 t = "Not found" ∨ isCanonicalDate (datePass3 t) = true ∨
      ∃ y m d, y < 1000 ∧ datePass3 t = fmtDate y m d := by
  unfold datePass3
  split
  · rename_i raw hs
    split
    · rename_i ymd hf
      exact Or.inr (dateYMD_ok hf)
    · exact Or.inl rfl
  · exact Or.inl rfl

theorem datePass2_ok (t : List Char) :
    datePass2 t = "Not found" ∨ isCanonicalDate (datePass2 t) = true ∨
      ∃ y m d, y < 1000 ∧ datePass2 t = fmtDate y m d := by
  unfold datePass2
  split
  · rename_i raw hs
    split
    · rename_i ymd hf
      exact Or.inr (dateYMD_ok hf)
    · exact datePass3_ok t
  · exact datePass3_ok t

theorem extract_date_ok (text : String) :
    extract_date text = "Not found" ∨
      isCanonicalDate (extract_date text) = true ∨
      ∃ y m d, y < 1000 ∧ extract_date text = fmtDate y m d := by
  unfold extract_date
  split
  · rename_i raw hs
    split
    · rename_i ymd hf
      exact Or.inr (dateYMD_ok hf)
    · exact datePass2_ok _
  · exact datePass2_ok _

end DocParse

namespace DocParse

/-! ### Supporting lemmas: the amount side of the canonical-format invariant.

Money tokens contain no minus sign, so every parsed amount is non-negative
and `fmt2` renders it in the canonical two-decimal shape. -/

/-- Continuations whose produced tokens never contain a minus sign. -/
def NoMinusK (k : List Char → MRes) : Prop :=
  ∀ cs t r, k cs = some (t, r) → '-' ∉ t

theorem consHead_some {c : Char} {res : MRes} {t : List Char} {r : List Char}
    (h : consHead c res = some (t, r)) :
    ∃ t', res = some (t', r) ∧ t = c :: t' := by
  cases res with
  | none => exact absurd h (by simp [consHead])
  | some p =>
    obtain ⟨t', r'⟩ := p
    simp only [consHead, Option.some.injEq, Prod.mk.injEq] at h
    exact ⟨t', by rw [h.2], h.1.symm⟩

theorem isPyWs_ne_minus {c : Char} (h : isPyWs c = true) : c ≠ '-' := by
  intro he
  subst he
  exact absurd h (by decide)

theorem isDigit_ne_minus {c : Char} (h : c.isDigit = true) : c ≠ '-' := by
  intro he
  subst he
  exact absurd h (by decide)

theorem isMoneySep_ne_minus {c : Char} (h : isMoneySep c = true) : c ≠ '-' := by
  intro he
  subst he
  exact absurd h (by decide)

theorem mDollar_noMinus {k : List Char → MRes} (hk : NoMinusK k) :
    NoMinusK (fun cs => mDollar cs k) := by
  intro cs t r h
  simp only [mDollar] at h
  split at h
  · split at h
    · rename_i x hx
      cases h
      obtain ⟨t', hres, ht⟩ := consHead_some hx
      subst ht
      intro hm
      rcases List.mem_cons.mp hm with h1 | h1
      · exact absurd h1 (by decide)
      · exact hk _ _ _ hres h1
    · exact hk _ _ _ h
  · exact hk _ _ _ h

theorem mWsStar_noMinus {k : List Char → MRes} (hk : NoMinusK k) :
    NoMinusK (fun cs => mWsStar cs k) := by
  intro cs
  induction cs with
  | nil =>
    intro t r h
    simp only [mWsStar] at h
    exact hk _ _ _ h
  | cons c rest ih =>
    intro t r h
    simp only [mWsStar] at h
    split at h
    · rename_i hws
      split at h
      · rename_i x hx
        cases h
        obtain ⟨t', hres, ht⟩ := consHead_some hx
        subst ht
        intro hm
        rcases List.mem_cons.mp hm with h1 | h1
        · exact isPyWs_ne_minus hws h1.symm
        · exact ih _ _ hres h1
      · exact hk _ _ _ h
    · exact hk _ _ _ h

theorem mDigitsN_noMinus {n : Nat} {k : List Char → MRes} (hk : NoMinusK k) :
    NoMinusK (fun cs => mDigitsN n cs k) := by
  induction n with
  | zero =>
    intro cs t r h
    exact hk _ _ _ h
  | succ n ih =>
    intro cs t r h
    simp only [mDigitsN] at h
    split at h
    · split at h
      · rename_i hdig
        obtain ⟨t', hres, ht⟩ := consHead_some h
        subst ht
        intro hm
        rcases List.mem_cons.mp hm with h1 | h1
        · exact isDigit_ne_minus hdig h1.symm
        · exact ih _ _ _ hres h1
      · exact absurd h (by simp)
    · exact absurd h (by simp)

theorem mDigits13_noMinus {k : List Char → MRes} (hk : NoMinusK k) :
    NoMinusK (fun cs => mDigits13 cs k) := by
  intro cs t r h
  simp only [mDigits13] at h
  rcases orElse_eq_some h with h | h
  · exact mDigitsN_noMinus hk _ _ _ h
  rcases orElse_eq_some h with h | h
  · exact mDigitsN_noMinus hk _ _ _ h
  · exact mDigitsN_noMinus hk _ _ _ h

theorem mStarSep3_noMinus {k : List Char → MRes} (hk : NoMinusK k) :
    NoMinusK (fun cs => mStarSep3 cs k) := by
  have H : ∀ n cs, cs.length ≤ n → ∀ t r, mStarSep3 cs k = some (t, r) →
      '-' ∉ t := by
    intro n
    induction n with
    | zero =>
      intro cs hl t r h
      have hcs : cs = [] := List.eq_nil_of_length_eq_zero (by omega)
      subst hcs
      simp only [mStarSep3] at h
      exact hk _ _ _ h
    | succ n ih =>
      intro cs hl t r h
      rw [mStarSep3.eq_def] at h
      split at h
      · rename_i s a b c rest
        split at h
        · rename_i hcond
          split at h
          · rename_i t' r' hrec
            cases h
            simp only [Bool.and_eq_true] at hcond
            intro hm
            rcases List.mem_cons.mp hm with h1 | hm
            · exact isMoneySep_ne_minus hcond.1.1.1 h1.symm
            rcases List.mem_cons.mp hm with h1 | hm
            · exact isDigit_ne_minus hcond.1.1.2 h1.symm
            rcases List.mem_cons.mp hm with h1 | hm
            · exact isDigit_ne_minus hcond.1.2 h1.symm
            rcases List.mem_cons.mp hm with h1 | hm
            · exact isDigit_ne_minus hcond.2 h1.symm
            · exact ih rest (by simp at hl; omega) _ _ hrec hm
          · exact hk _ _ _ h
        · exact hk _ _ _ h
      · exact hk _ _ _ h
  intro cs t r h
  exact H cs.length cs le_rfl t r h

theorem mSep2_noMinus {k : List Char → MRes} (hk : NoMinusK k) :
    NoMinusK (fun cs => mSep2 cs k) := by
  intro cs t r h
  simp only [mSep2] at h
  split at h
  · split at h
    · rename_i hcond
      obtain ⟨t1, hh1, ht1⟩ := consHead_some h
      obtain ⟨t2, hh2, ht2⟩ := consHead_some hh1
      obtain ⟨t3, hh3, ht3⟩ := consHead_some hh2
      subst ht1
      subst ht2
      subst ht3
      simp only [Bool.and_eq_true] at hcond
      intro hm
      rcases List.mem_cons.mp hm with h1 | hm
      · exact isMoneySep_ne_minus hcond.1.1 h1.symm
      rcases List.mem_cons.mp hm with h1 | hm
      · exact isDigit_ne_minus hcond.1.2 h1.symm
      rcases List.mem_cons.mp hm with h1 | hm
      · exact isDigit_ne_minus hcond.2 h1.symm
      · exact hk _ _ _ hh3 hm
    · exact absurd h (by simp)
  · exact absurd h (by simp)

theorem moneyAt_noMinus {cs t r : List Char}
    (h : moneyAt cs = some (t, r)) : '-' ∉ t := by
  have h5 : NoMinusK (fun r5 => some ([], r5)) := by
    intro cs t r h
    simp only [Option.some.injEq, Prod.mk.injEq] at h
    obtain ⟨h1, h2⟩ := h
    subst h1
    simp
  have h4 := mSep2_noMinus h5
  have h3 := mStarSep3_noMinus h4
  have h2 := mDigits13_noMinus h3
  have h1 := mWsStar_noMinus h2
  have h0 := mDollar_noMinus h1
  exact h0 cs t r h

end DocParse

namespace DocParse

theorem moneyAtFst_some {cs tok : List Char}
    (h : (moneyAt cs).map Prod.fst = some tok) :
    ∃ cs' rest, moneyAt cs' = some (tok, rest) := by
  cases hm : moneyAt cs with
  | none => rw [hm] at h; exact absurd h (by simp)
  | some p =>
    rw [hm] at h
    obtain ⟨t, r⟩ := p
    simp only [Option.map_some', Option.some.injEq] at h
    exact ⟨cs, r, by rw [hm, h]⟩

theorem gapMoney_some {budget : Nat} : ∀ {cs tok : List Char},
    gapMoney budget cs = some tok →
    ∃ cs' rest, moneyAt cs' = some (tok, rest) := by
  induction budget with
  | zero =>
    intro cs tok h
    exact moneyAtFst_some h
  | succ b ih =>
    intro cs tok h
    cases cs with
    | nil => exact moneyAtFst_some h
    | cons c rest =>
      simp only [gapMoney] at h
      split at h
      · split at h
        · rename_i t ht
          cases h
          exact ih ht
        · exact moneyAtFst_some h
      · exact moneyAtFst_some h

theorem kwAltsGo_some {kws : List (List Char)} {cs : List Char}
    {k : List Char → Option (List Char)} {tok : List Char}
    (h : kwAltsGo kws cs k = some tok) : ∃ cs', k cs' = some tok := by
  induction kws with
  | nil => exact absurd h (by simp [kwAltsGo])
  | cons kw rest ih =>
    rw [kwAltsGo] at h
    split at h
    · rename_i t ht
      cases h
      rcases hd : caselessDrop kw cs with _ | r
      · rw [hd] at ht
        exact absurd ht (by simp)
      · rw [hd] at ht
        simp only [Option.some_bind] at ht
        exact ⟨r, ht⟩
    · exact ih h

theorem labeledSearch_some {gap : Nat} : ∀ {cs tok : List Char},
    labeledSearch gap cs = some tok →
    ∃ cs' rest, moneyAt cs' = some (tok, rest) := by
  intro cs
  induction cs with
  | nil =>
    intro tok h
    exact absurd h (by simp [labeledSearch])
  | cons c rest ih =>
    intro tok h
    rw [labeledSearch] at h
    split at h
    · rename_i t ht
      cases h
      obtain ⟨cs', hkk⟩ := kwAltsGo_some ht
      exact gapMoney_some hkk
    · exact ih h

theorem moneyFindallFuel_mem {fuel : Nat} : ∀ {cs tok : List Char},
    tok ∈ moneyFindallFuel fuel cs →
    ∃ cs' rest, moneyAt cs' = some (tok, rest) := by
  induction fuel with
  | zero =>
    intro cs tok h
    exact absurd h (by simp [moneyFindallFuel])
  | succ f ih =>
    intro cs tok h
    cases cs with
    | nil => exact absurd h (by simp [moneyFindallFuel])
    | cons c rest =>
      rw [moneyFindallFuel] at h
      split at h
      · rename_i t r hm
        rcases List.mem_cons.mp h with h1 | h1
        · subst h1
          exact ⟨c :: rest, r, hm⟩
        · exact ih h1
      · exact ih h

/-! Non-negativity of parsed amounts. -/

theorem mem_pyStrip {c : Char} {l : List Char} (h : c ∈ pyStrip l) : c ∈ l := by
  unfold pyStrip at h
  rw [List.mem_reverse] at h
  have h1 := (List.dropWhile_sublist (l := (l.dropWhile isPyWs).reverse) isPyWs).mem h
  rw [List.mem_reverse] at h1
  exact (List.dropWhile_sublist isPyWs).mem h1

theorem filter_noMinus {l : List Char} {p : Char → Bool} (h : '-' ∉ l) :
    '-' ∉ l.filter p :=
  fun hm => h (List.mem_filter.mp hm).1

theorem commaToDotMap_noMinus {l : List Char} (h : '-' ∉ l) :
    '-' ∉ l.map (fun c => if c == ',' then '.' else c) := by
  intro hm
  obtain ⟨c, hc, he⟩ := List.mem_map.mp hm
  by_cases h2 : c = ','
  · subst h2
    simp at he
  · rw [if_neg (by simpa using h2)] at he
    exact h (he ▸ hc)

theorem pyOfRat_cases {q : Rat} (h : 0 ≤ q) :
    (∃ q', pyOfRat q = PyFloat.finite q' ∧ 0 ≤ q') ∨
      pyOfRat q = PyFloat.posInf := by
  unfold pyOfRat
  split
  · exact Or.inl ⟨q, rfl, h⟩
  · exact Or.inr rfl

theorem pythonFloatUnsigned_cases {cs : List Char} {v : PyFloat}
    (h : pythonFloatUnsigned cs = some v) :
    (∃ q, v = PyFloat.finite q ∧ 0 ≤ q) ∨ v = PyFloat.posInf := by
  unfold pythonFloatUnsigned at h
  split at h
  · split at h
    · exact absurd h (by simp)
    · cases h
      exact pyOfRat_cases (Rat.mkRat_nonneg (Int.ofNat_nonneg _) _)
  · split at h
    · cases h
      exact pyOfRat_cases (Rat.mkRat_nonneg (Int.ofNat_nonneg _) _)
    · exact absurd h (by simp)
  · exact absurd h (by simp)

theorem pythonFloat_cases {cs : List Char} {v : PyFloat} (hnm : '-' ∉ cs)
    (h : pythonFloat cs = some v) :
    (∃ q, v = PyFloat.finite q ∧ 0 ≤ q) ∨ v = PyFloat.posInf := by
  unfold pythonFloat at h
  split at h
  · exact absurd (List.mem_cons_self _ _) hnm
  · exact pythonFloatUnsigned_cases h

theorem parse_amount_core_cases {tok : List Char} {v : PyFloat}
    (hnm : '-' ∉ tok) (h : parse_amount_core tok = some v) :
    (∃ q, v = PyFloat.finite q ∧ 0 ≤ q) ∨ v = PyFloat.posInf := by
  have hs : '-' ∉ (pyStrip tok).filter keepAmountCh :=
    fun hm => hnm (mem_pyStrip (List.mem_filter.mp hm).1)
  simp only [parse_amount_core] at h
  split at h
  · exact absurd h (by simp)
  · split at h
    · exact absurd h (by simp)
    · split at h
      · split at h
        · exact pythonFloat_cases
            (commaToDotMap_noMinus (filter_noMinus hs)) h
        · exact pythonFloat_cases (filter_noMinus hs) h
      · split at h
        · split at h
          · exact pythonFloat_cases (commaToDotMap_noMinus hs) h
          · exact pythonFloat_cases (filter_noMinus hs) h
        · exact pythonFloat_cases hs h

end DocParse

namespace DocParse

theorem natDigitsAux_spec : ∀ fuel n acc, n < fuel →
    ∃ ds, natDigitsAux fuel n acc = ds ++ acc ∧ ds ≠ [] ∧
      ∀ c ∈ ds, c.isDigit = true := by
  intro fuel
  induction fuel with
  | zero =>
    intro n acc h
    omega
  | succ f ih =>
    intro n acc h
    by_cases hn : n < 10
    · rw [natDigitsAux_small hn (by omega)]
      refine ⟨[Nat.digitChar n], rfl, by simp, ?_⟩
      intro c hc
      simp only [List.mem_singleton] at hc
      subst hc
      exact digitChar_isDigit hn
    · rw [natDigitsAux_step (by omega)]
      obtain ⟨ds, heq, hne, hdig⟩ :=
        ih (n / 10) (Nat.digitChar (n % 10) :: acc) (by omega)
      refine ⟨ds ++ [Nat.digitChar (n % 10)], ?_, by simp, ?_⟩
      · rw [heq, List.append_assoc]
        simp
      · intro c hc
        rcases List.mem_append.mp hc with h1 | h1
        · exact hdig c h1
        · simp only [List.mem_singleton] at h1
          subst h1
          exact digitChar_isDigit (by omega)

theorem natDigitsList_spec (n : Nat) :
    natDigitsList n ≠ [] ∧ ∀ c ∈ natDigitsList n, c.isDigit = true := by
  obtain ⟨ds, heq, hne, hdig⟩ := natDigitsAux_spec (n + 1) n [] (by omega)
  unfold natDigitsList
  rw [heq, List.append_nil]
  exact ⟨hne, hdig⟩

theorem fmt2_canonical {q : Rat} (h : 0 ≤ q) :
    isCanonicalAmount (fmt2 (PyFloat.finite q)) = true := by
  have hnum : ¬ q.num < 0 := by
    have h2 := Rat.num_nonneg.mpr h
    omega
  rw [fmt2, if_neg hnum]
  obtain ⟨hne, hdig⟩ :=
    natDigitsList_spec ((roundHalfEven (ratScale100 q)).toNat / 100)
  unfold isCanonicalAmount fmt2NatList pad2
  have hrev : (natDigitsList ((roundHalfEven (ratScale100 q)).toNat / 100) ++
      '.' :: [Nat.digitChar ((roundHalfEven (ratScale100 q)).toNat % 100 / 10),
        Nat.digitChar ((roundHalfEven (ratScale100 q)).toNat % 100 % 10)]).reverse =
      Nat.digitChar ((roundHalfEven (ratScale100 q)).toNat % 100 % 10) ::
      Nat.digitChar ((roundHalfEven (ratScale100 q)).toNat % 100 / 10) ::
      '.' :: (natDigitsList ((roundHalfEven (ratScale100 q)).toNat / 100)).reverse := by
    simp
  rw [hrev]
  have hd1 := digitChar_isDigit
    (show (roundHalfEven (ratScale100 q)).toNat % 100 / 10 < 10 by omega)
  have hd2 := digitChar_isDigit
    (show (roundHalfEven (ratScale100 q)).toNat % 100 % 10 < 10 by omega)
  have hner : (natDigitsList ((roundHalfEven (ratScale100 q)).toNat / 100)).reverse ≠ [] := by
    simpa using hne
  have hallr : ∀ c ∈ (natDigitsList ((roundHalfEven (ratScale100 q)).toNat / 100)).reverse,
      c.isDigit = true := by
    intro c hc
    exact hdig c (List.mem_reverse.mp hc)
  simp [hd1, hd2, List.all_eq_true, hallr, hner]
  exact hdig

theorem fmt2_canonical_or_inf {v : PyFloat}
    (h : (∃ q, v = PyFloat.finite q ∧ 0 ≤ q) ∨ v = PyFloat.posInf) :
    isCanonicalAmount (fmt2 v) = true ∨ fmt2 v = "inf" := by
  rcases h with ⟨q, rfl, hq⟩ | rfl
  · exact Or.inl (fmt2_canonical hq)
  · exact Or.inr rfl

theorem pyMax_eq_or (a b : PyFloat) : pyMax a b = a ∨ pyMax a b = b := by
  unfold pyMax
  split
  · exact Or.inr rfl
  · exact Or.inl rfl

/-- The fold computing Python's `max` returns one of its inputs. -/
theorem foldl_pyMax_mem : ∀ (qs : List PyFloat) (q : PyFloat),
    qs.foldl pyMax q = q ∨ qs.foldl pyMax q ∈ qs := by
  intro qs
  induction qs with
  | nil =>
    intro q
    exact Or.inl rfl
  | cons x xs ih =>
    intro q
    have hfold : (x :: xs).foldl pyMax q = xs.foldl pyMax (pyMax q x) := rfl
    rcases ih (pyMax q x) with h | h
    · rcases pyMax_eq_or q x with h2 | h2
      · exact Or.inl (by rw [hfold, h, h2])
      · refine Or.inr ?_
        rw [hfold, h, h2]
        exact List.mem_cons_self _ _
    · refine Or.inr ?_
      rw [hfold]
      exact List.mem_cons_of_mem x h

theorem totalFallback_ok (t : List Char) (pre : List String) :
    (totalFallback t pre).1 = "Not found" ∨
      isCanonicalAmount (totalFallback t pre).1 = true ∨
      (totalFallback t pre).1 = "inf" := by
  unfold totalFallback
  split
  · exact Or.inl rfl
  · rename_i q qs hfm
    right
    have hmem : qs.foldl pyMax q ∈ (moneyFindall t).filterMap parse_amount_core := by
      rw [hfm]
      rcases foldl_pyMax_mem qs q with h | h
      · rw [h]
        exact List.mem_cons_self _ _
      · exact List.mem_cons_of_mem _ h
    obtain ⟨tok, htok, hparse⟩ := List.mem_filterMap.mp hmem
    obtain ⟨cs', rest, hmon⟩ := moneyFindallFuel_mem htok
    exact fmt2_canonical_or_inf
      (parse_amount_core_cases (moneyAt_noMinus hmon) hparse)

/-- C2 amended: whenever `extract_date` does not return the sentinel, its
result is canonical `YYYY-MM-DD` unless the parsed year is below 1000, in
which case `strftime` emits the year unpadded; and whenever the chosen value
of `extract_total` is not the sentinel, it is either a decimal numeral with
exactly two fractional digits, no thousands separators and no currency
symbol, or the string "inf" when the selected token's value overflows the
binary64 range (Python's `float()` saturates to infinity instead of
raising, and `"%.2f"` prints it as "inf"). -/
theorem c2_amended_canonical_formats (text : String) (gap : Nat) :
    (extract_date text = "Not found" ∨
      isCanonicalDate (extract_date text) = true ∨
      ∃ y m d, y < 1000 ∧ extract_date text = fmtDate y m d) ∧
    ((extract_total text gap).1 = "Not found" ∨
      isCanonicalAmount (extract_total text gap).1 = true ∨
      (extract_total text gap).1 = "inf") := by
  refine ⟨extract_date_ok text, ?_⟩
  unfold extract_total
  split
  · rename_i tok hls
    split
    · rename_i v hq
      right
      obtain ⟨cs', rest, hmon⟩ := labeledSearch_some hls
      exact fmt2_canonical_or_inf
        (parse_amount_core_cases (moneyAt_noMinus hmon) hq)
    · exact totalFallback_ok _ _
  · exact totalFallback_ok _ _

end DocParse
